import Mathlib

/-!
Shallow embedding of the KBA-Med pharmaceutical chaincode
(`contracts/PharmaChaincode`, file `src/main.go`) and verification of the
behavioural claims about it.

The ledger substrate (Hyperledger Fabric's stub) is modelled as an explicit
state: a flat key/value association list (the world state) together with an
append-only mutation log (the per-key history) and a transaction counter.
Stored bytes are modelled by the typed sum `StoredVal` of the two JSON shapes
the contract ever writes (a `Medicine` or a `MedicineRequest`); Go's
`json.Unmarshal` behaviour on those shapes is modelled explicitly (see
`decodeStored` and `decodeHistValue`). The caller identity
(`ctx.GetClientIdentity().GetMSPID()`) is passed to each operation as an
explicit `caller` argument. Infrastructure failures of the stub itself
(connectivity, etc.) are outside the model: `GetState` / `PutState` /
`DelState` are total here, so the only error paths are the contract's own
checks, exactly as they appear in the source.
-/

/-- The `Medicine` struct of the contract. `time.Time` fields are represented
by their validated RFC3339 input strings (the contract only ever parses the
input string and stores the result; no arithmetic is done on the times). -/
structure Medicine where
  name : String
  quantity : Int
  manufactureDate : String
  expiryDate : String
  owner : String
deriving DecidableEq, Repr

/-- The `MedicineRequest` struct of the contract. -/
structure MedicineRequest where
  medicineName : String
  requester : String
  details : String
deriving DecidableEq, Repr

/-- A value stored in world state: the JSON encoding of either a `Medicine`
(written by `AddMedicine`) or a `MedicineRequest` (written by
`RequestMedicine`). -/
inductive StoredVal where
  | med (m : Medicine)
  | req (r : MedicineRequest)
deriving DecidableEq, Repr

/-- The `MedicineHistory` struct of the contract: one decoded history entry.
Transaction ids and timestamps are opaque to the contract; we model both by
the `Nat` transaction counter of the ledger. -/
structure MedicineHistory where
  txId : Nat
  value : Medicine
  timestamp : Nat
deriving DecidableEq, Repr

/-- One raw entry of the ledger's per-key mutation log, as returned by
`GetHistoryForKey`: the key, the transaction id, the stored bytes (`none` is
a tombstone from a delete), and the commit timestamp. -/
structure HistEntry where
  key : String
  txId : Nat
  value : Option StoredVal
  timestamp : Nat
deriving DecidableEq, Repr

/-- The errors the contract can return, one constructor per distinct
`fmt.Errorf` site reachable in the model. -/
inductive Err where
  | alreadyExists (name : String)
  | parseManufacture (s : String)
  | parseExpiry (s : String)
  | notFound (name : String)
  | unauthorized (org : String)
  | requestExists (name : String)
  | decodeFail (key : String)
deriving DecidableEq, Repr

/-- The ledger state: world state (`kv`), the append-only mutation log
(`hist`), and the transaction counter used to stamp mutations. -/
structure Ledger where
  kv : List (String × StoredVal)
  hist : List HistEntry
  nextTx : Nat
deriving DecidableEq, Repr

deriving instance DecidableEq for Except

def emptyLedger : Ledger := { kv := [], hist := [], nextTx := 0 }

/-- Map update on the association list (Fabric's `PutState` overwrites the
key if present). The scan order of the association list is irrelevant to
every claim because `ListMedicines` sorts its output. -/
def upsert : List (String × StoredVal) → String → StoredVal → List (String × StoredVal)
  | [], k, v => [(k, v)]
  | (k', v') :: rest, k, v =>
    if k' == k then (k, v) :: rest else (k', v') :: upsert rest k v

/-- `ctx.GetStub().GetState(key)`: point read of the world state. -/
def getState (L : Ledger) (k : String) : Option StoredVal :=
  L.kv.lookup k

/-- `ctx.GetStub().PutState(key, bytes)`: write, and record the mutation in
the history log. -/
def putState (L : Ledger) (k : String) (v : StoredVal) : Ledger :=
  { kv := upsert L.kv k v
    hist := L.hist ++ [{ key := k, txId := L.nextTx, value := some v, timestamp := L.nextTx }]
    nextTx := L.nextTx + 1 }

/-- `ctx.GetStub().DelState(key)`: remove the key and record a tombstone in
the history log. -/
def delState (L : Ledger) (k : String) : Ledger :=
  { kv := L.kv.filter (fun p => p.1 != k)
    hist := L.hist ++ [{ key := k, txId := L.nextTx, value := none, timestamp := L.nextTx }]
    nextTx := L.nextTx + 1 }

/-- `ctx.GetStub().GetHistoryForKey(key)`: the mutation log restricted to one
key, in ledger order. -/
def historyOf (L : Ledger) (k : String) : List HistEntry :=
  L.hist.filter (fun e => e.key == k)

/-- Modelled from the spec: Go's `time.Parse(time.RFC3339, s)` (standard
library, outside `src/`). The spec fixes the profile to "date+time with
offset"; we accept `YYYY-MM-DDTHH:MM:SS` followed by `Z` or a `±HH:MM`
offset, checking the separator and digit positions. Every claim depends only
on the valid/invalid distinction, never on which instant a valid string
denotes, so on success the validated string itself is returned (the contract
stores the parsed time and never computes with it). -/
def rfc3339Valid (s : String) : Bool :=
  let cs := s.toList
  let dig := fun (i : Nat) => match cs.get? i with
    | some c => c.isDigit
    | none => false
  let ch := fun (i : Nat) (c : Char) => cs.get? i == some c
  (dig 0 && dig 1 && dig 2 && dig 3 && ch 4 '-' && dig 5 && dig 6 && ch 7 '-' &&
   dig 8 && dig 9 && ch 10 'T' && dig 11 && dig 12 && ch 13 ':' && dig 14 &&
   dig 15 && ch 16 ':' && dig 17 && dig 18) &&
  ((cs.length == 20 && ch 19 'Z') ||
   (cs.length == 25 && (ch 19 '+' || ch 19 '-') &&
    dig 20 && dig 21 && ch 22 ':' && dig 23 && dig 24))

def parseRFC3339 (s : String) : Option String :=
  if rfc3339Valid s then some s else none

/-- `AddMedicine(ctx, name, quantity, manufactureDate, expiryDate)`.
Checks in source order: existence of `name`, parse of the manufacture date,
parse of the expiry date; then captures the caller as `owner`, encodes the
`Medicine` and writes it under key `name`. Returns the result together with
the ledger state after the call. -/
def addMedicine (L : Ledger) (caller name : String) (quantity : Int)
    (manufactureDate expiryDate : String) : Except Err Unit × Ledger :=
  match getState L name with
  | some _ => (Except.error (Err.alreadyExists name), L)
  | none =>
    match parseRFC3339 manufactureDate with
    | none => (Except.error (Err.parseManufacture manufactureDate), L)
    | some mt =>
      match parseRFC3339 expiryDate with
      | none => (Except.error (Err.parseExpiry expiryDate), L)
      | some et =>
        let medicine : Medicine :=
          { name := name, quantity := quantity, manufactureDate := mt,
            expiryDate := et, owner := caller }
        (Except.ok (), putState L name (StoredVal.med medicine))

/-- `DeleteMedicine(ctx, name)`: existence check, then `DelState`. -/
def deleteMedicine (L : Ledger) (name : String) : Except Err Unit × Ledger :=
  match getState L name with
  | none => (Except.error (Err.notFound name), L)
  | some _ => (Except.ok (), delState L name)

/-- Go's `json.Unmarshal(bytes, &medicine)` on bytes that are present in
world state. Unmarshalling the JSON of a `MedicineRequest` into a `Medicine`
SUCCEEDS in Go: every field of `MedicineRequest` is an unknown field for
`Medicine` and unknown fields are silently ignored, leaving the zero value
(`Name:""`, `Quantity:0`, zero `time.Time`, `Owner:""`). -/
def zeroMedicine : Medicine :=
  { name := "", quantity := 0, manufactureDate := "0001-01-01T00:00:00Z",
    expiryDate := "0001-01-01T00:00:00Z", owner := "" }

def decodeStored : StoredVal → Medicine
  | StoredVal.med m => m
  | StoredVal.req _ => zeroMedicine

/-- The comparison `ListMedicines` sorts by: `medicines[i].Name <
medicines[j].Name` in `sort.Slice`, i.e. ascending lexicographic order on
the name strings. -/
def nameLe (a b : Medicine) : Prop := a.name ≤ b.name

instance : DecidableRel nameLe := fun a b => inferInstanceAs (Decidable (a.name ≤ b.name))

instance : IsTotal Medicine nameLe := ⟨fun a b => le_total a.name b.name⟩

instance : IsTrans Medicine nameLe := ⟨fun _ _ _ h1 h2 => le_trans h1 h2⟩

/-- `ListMedicines(ctx)`: `GetStateByRange("", "")` scans EVERY key of world
state (medicine keys and `request_*` keys alike), unmarshals each value as a
`Medicine` (which never fails on the two JSON shapes the contract writes, see
`decodeStored`), and sorts by name ascending. -/
def listMedicines (L : Ledger) : List Medicine :=
  List.insertionSort nameLe (L.kv.map (fun p => decodeStored p.2))

/-- Go's `json.Unmarshal(queryResponse.Value, &txValue)` inside
`ShowMedicineHistory`: a tombstone entry has `Value == nil` and
`json.Unmarshal(nil, ...)` FAILS ("unexpected end of JSON input"), so the
whole operation aborts on the first tombstone. -/
def decodeHistValue (k : String) (v : Option StoredVal) : Except Err Medicine :=
  match v with
  | none => Except.error (Err.decodeFail k)
  | some sv => Except.ok (decodeStored sv)

def histDecodeAll (k : String) : List HistEntry → Except Err (List MedicineHistory)
  | [] => Except.ok []
  | e :: rest =>
    match decodeHistValue k e.value with
    | Except.error err => Except.error err
    | Except.ok m =>
      match histDecodeAll k rest with
      | Except.error err => Except.error err
      | Except.ok l =>
        Except.ok ({ txId := e.txId, value := m, timestamp := e.timestamp } :: l)

/-- `ShowMedicineHistory(ctx, name)`: iterate `GetHistoryForKey(name)`,
unmarshalling each version's value as a `Medicine`. -/
def showMedicineHistory (L : Ledger) (name : String) : Except Err (List MedicineHistory) :=
  histDecodeAll name (historyOf L name)

/-- The `allowedOrgs` map of `RequestMedicine`. -/
def allowedOrgs (org : String) : Bool :=
  org == "ProducerMSP" || org == "SupplierMSP"

/-- The composite request key `fmt.Sprintf("request_%s_%s", requester, name)`. -/
def requestKey (requester name : String) : String :=
  "request_" ++ requester ++ "_" ++ name

/-- `RequestMedicine(ctx, name, details)`. Checks in source order: existence
of medicine `name` (NotFound), membership of the caller in `allowedOrgs`
(Unauthorized), absence of an existing request under the composite key
(AlreadyExists); then writes the `MedicineRequest`. -/
def requestMedicine (L : Ledger) (caller name details : String) : Except Err Unit × Ledger :=
  match getState L name with
  | none => (Except.error (Err.notFound name), L)
  | some _ =>
    if !allowedOrgs caller then
      (Except.error (Err.unauthorized caller), L)
    else
      match getState L (requestKey caller name) with
      | some _ => (Except.error (Err.requestExists name), L)
      | none =>
        let request : MedicineRequest :=
          { medicineName := name, requester := caller, details := details }
        (Except.ok (), putState L (requestKey caller name) (StoredVal.req request))

/-- Ledger states reachable from the empty ledger by successful contract
operations (failing operations leave the state unchanged, see the atomicity
theorem, so they do not enlarge the reachable set). -/
inductive Reachable : Ledger → Prop where
  | init : Reachable emptyLedger
  | add (L : Ledger) (caller name : String) (q : Int) (d1 d2 : String) (L' : Ledger) :
      Reachable L → addMedicine L caller name q d1 d2 = (Except.ok (), L') → Reachable L'
  | del (L : Ledger) (name : String) (L' : Ledger) :
      Reachable L → deleteMedicine L name = (Except.ok (), L') → Reachable L'
  | req (L : Ledger) (caller name details : String) (L' : Ledger) :
      Reachable L → requestMedicine L caller name details = (Except.ok (), L') → Reachable L'

/-! ### Concrete scenario states (the §8 scenario of the spec) -/

def dmStr : String := "2023-01-01T00:00:00Z"

def deStr : String := "2025-01-01T00:00:00Z"

/-- The `Medicine` record written by `AddMedicine("Aspirin", 100, dmStr, deStr)`
submitted by `ManufacturerMSP`. -/
def medAspirin : Medicine :=
  { name := "Aspirin", quantity := 100, manufactureDate := dmStr,
    expiryDate := deStr, owner := "ManufacturerMSP" }

/-- Ledger after `AddMedicine("Aspirin", 100, ...)` by `ManufacturerMSP`. -/
def ledgerA : Ledger := (addMedicine emptyLedger "ManufacturerMSP" "Aspirin" 100 dmStr deStr).2

/-- Then `RequestMedicine("Aspirin", "urgent")` by `SupplierMSP`. -/
def ledgerAR : Ledger := (requestMedicine ledgerA "SupplierMSP" "Aspirin" "urgent").2

/-- Then `DeleteMedicine("Aspirin")`. -/
def ledgerARD : Ledger := (deleteMedicine ledgerAR "Aspirin").2

/-- Add then Delete, with no request in between. -/
def ledgerAD : Ledger := (deleteMedicine ledgerA "Aspirin").2

/-- On top of `ledgerAR`: `AddMedicine("")` with valid dates (the contract
performs no non-emptiness check on the name). -/
def ledgerEmptyNameAdded : Ledger := (addMedicine ledgerAR "OwnerMSP" "" 1 dmStr deStr).2

/-- Then `DeleteMedicine("")`. -/
def ledgerEmptyNameDeleted : Ledger := (deleteMedicine ledgerEmptyNameAdded "").2

/-- The record `AddMedicine("", 5, dmStr, deStr)` by `ManufacturerMSP` writes. -/
def medEmptyName : Medicine :=
  { name := "", quantity := 5, manufactureDate := dmStr,
    expiryDate := deStr, owner := "ManufacturerMSP" }

/-! ### Helper lemmas about the ledger primitives -/

theorem mem_upsert {kv : List (String × StoredVal)} {k : String} {v : StoredVal}
    {p : String × StoredVal} (h : p ∈ upsert kv k v) : p = (k, v) ∨ p ∈ kv := by
  induction kv with
  | nil => simpa [upsert] using h
  | cons q rest ih =>
    obtain ⟨k', v'⟩ := q
    simp only [upsert] at h
    split at h
    · rcases List.mem_cons.mp h with h1 | h1
      · exact Or.inl h1
      · exact Or.inr (List.mem_cons_of_mem _ h1)
    · rcases List.mem_cons.mp h with h1 | h1
      · exact Or.inr (h1 ▸ List.mem_cons_self _ _)
      · rcases ih h1 with h2 | h2
        · exact Or.inl h2
        · exact Or.inr (List.mem_cons_of_mem _ h2)

theorem lookup_upsert_self (kv : List (String × StoredVal)) (k : String) (v : StoredVal) :
    (upsert kv k v).lookup k = some v := by
  induction kv with
  | nil => simp [upsert, List.lookup]
  | cons q rest ih =>
    obtain ⟨k', v'⟩ := q
    by_cases h : k' = k
    · simp [upsert, h, List.lookup]
    · have hb : (k' == k) = false := by simpa using h
      have hb' : (k == k') = false := by simpa using Ne.symm h
      simp [upsert, hb, List.lookup, hb', ih]

theorem getState_putState_self (L : Ledger) (k : String) (v : StoredVal) :
    getState (putState L k v) k = some v := by
  simpa [getState, putState] using lookup_upsert_self L.kv k v

theorem lookup_filter_bne (kv : List (String × StoredVal)) (k : String) :
    (kv.filter (fun p => p.1 != k)).lookup k = none := by
  induction kv with
  | nil => simp [List.lookup]
  | cons q rest ih =>
    obtain ⟨k', v'⟩ := q
    by_cases h : k' = k
    · simp [h, ih]
    · have hb' : (k == k') = false := by simpa using Ne.symm h
      simp [h, List.lookup, hb', ih]

theorem getState_delState_self (L : Ledger) (k : String) :
    getState (delState L k) k = none := by
  simpa [getState, delState] using lookup_filter_bne L.kv k

theorem mem_of_lookup_eq_some {kv : List (String × StoredVal)} {k : String} {v : StoredVal}
    (h : kv.lookup k = some v) : (k, v) ∈ kv := by
  induction kv with
  | nil => simp [List.lookup] at h
  | cons q rest ih =>
    obtain ⟨k', v'⟩ := q
    by_cases hk : k = k'
    · subst hk
      simp [List.lookup] at h
      exact h ▸ List.mem_cons_self _ _
    · have hb : (k == k') = false := by simpa using hk
      simp [List.lookup, hb] at h
      exact List.mem_cons_of_mem _ (ih h)

/-! ### Success and failure shapes of the operations -/

theorem addMedicine_ok_shape {L : Ledger} {caller name : String} {q : Int}
    {d1 d2 : String} {L' : Ledger}
    (h : addMedicine L caller name q d1 d2 = (Except.ok (), L')) :
    getState L name = none ∧ ∃ mt et, parseRFC3339 d1 = some mt ∧ parseRFC3339 d2 = some et ∧
      L' = putState L name (StoredVal.med
        { name := name, quantity := q, manufactureDate := mt, expiryDate := et, owner := caller }) := by
  unfold addMedicine at h
  split at h
  · exact absurd (congrArg Prod.fst h) (by simp)
  · next hget =>
    split at h
    · exact absurd (congrArg Prod.fst h) (by simp)
    · next mt hmt =>
      split at h
      · exact absurd (congrArg Prod.fst h) (by simp)
      · next et het =>
        refine ⟨hget, mt, et, hmt, het, ?_⟩
        exact (congrArg Prod.snd h).symm

theorem deleteMedicine_ok_shape {L : Ledger} {name : String} {L' : Ledger}
    (h : deleteMedicine L name = (Except.ok (), L')) :
    getState L name ≠ none ∧ L' = delState L name := by
  unfold deleteMedicine at h
  split at h
  · exact absurd (congrArg Prod.fst h) (by simp)
  · next hget => exact ⟨by simp [hget], (congrArg Prod.snd h).symm⟩

theorem requestMedicine_ok_shape {L : Ledger} {caller name details : String} {L' : Ledger}
    (h : requestMedicine L caller name details = (Except.ok (), L')) :
    L' = putState L (requestKey caller name)
      (StoredVal.req { medicineName := name, requester := caller, details := details }) := by
  unfold requestMedicine at h
  split at h
  · exact absurd (congrArg Prod.fst h) (by simp)
  · split at h
    · exact absurd (congrArg Prod.fst h) (by simp)
    · split at h
      · exact absurd (congrArg Prod.fst h) (by simp)
      · exact (congrArg Prod.snd h).symm

theorem addMedicine_state_cases (L : Ledger) (caller name : String) (q : Int) (d1 d2 : String) :
    (addMedicine L caller name q d1 d2).1 = Except.ok () ∨
    (addMedicine L caller name q d1 d2).2 = L := by
  unfold addMedicine
  split
  · exact Or.inr rfl
  · split
    · exact Or.inr rfl
    · split
      · exact Or.inr rfl
      · exact Or.inl rfl

theorem deleteMedicine_state_cases (L : Ledger) (name : String) :
    (deleteMedicine L name).1 = Except.ok () ∨ (deleteMedicine L name).2 = L := by
  unfold deleteMedicine
  split
  · exact Or.inr rfl
  · exact Or.inl rfl

theorem requestMedicine_state_cases (L : Ledger) (caller name details : String) :
    (requestMedicine L caller name details).1 = Except.ok () ∨
    (requestMedicine L caller name details).2 = L := by
  unfold requestMedicine
  split
  · exact Or.inr rfl
  · split
    · exact Or.inr rfl
    · split
      · exact Or.inr rfl
      · exact Or.inl rfl

/-! ### The key-integrity invariant of reachable states -/

/-- Every stored `Medicine` record's `name` field equals the key it is stored
under (requests are unconstrained here). -/
def InvKV (kv : List (String × StoredVal)) : Prop :=
  ∀ p ∈ kv, ∀ m, p.2 = StoredVal.med m → m.name = p.1

theorem invKV_upsert {kv : List (String × StoredVal)} {k : String} {v : StoredVal}
    (hkv : InvKV kv) (hv : ∀ m, v = StoredVal.med m → m.name = k) :
    InvKV (upsert kv k v) := by
  intro p hp
  rcases mem_upsert hp with h | h
  · subst h; exact hv
  · exact hkv p h

theorem invKV_filter {kv : List (String × StoredVal)} (hkv : InvKV kv)
    (f : String × StoredVal → Bool) : InvKV (kv.filter f) := by
  intro p hp
  exact hkv p (List.mem_of_mem_filter hp)

theorem reachable_invKV {L : Ledger} (h : Reachable L) : InvKV L.kv := by
  induction h with
  | init => intro p hp; simp [emptyLedger] at hp
  | add L caller name q d1 d2 L' _ hstep ih =>
    obtain ⟨-, mt, et, -, -, hL'⟩ := addMedicine_ok_shape hstep
    subst hL'
    exact invKV_upsert ih (fun m hm => by cases hm; rfl)
  | del L name L' _ hstep ih =>
    obtain ⟨-, hL'⟩ := deleteMedicine_ok_shape hstep
    subst hL'
    exact invKV_filter ih _
  | req L caller name details L' _ hstep ih =>
    have hL' := requestMedicine_ok_shape hstep
    subst hL'
    exact invKV_upsert ih (fun m hm => by cases hm)

/-! ### The claims -/

/-- C1 counterexample: on the empty world state, `RequestMedicine("Aspirin")`
from the unauthorized identity `HackerMSP` returns NotFound, not Unauthorized
— the existence check runs before the authorization check, so the claim's
"regardless of whether `n` exists" is false. -/
theorem c1_counterexample :
    (requestMedicine emptyLedger "HackerMSP" "Aspirin" "urgent").1 =
      Except.error (Err.notFound "Aspirin") ∧
    allowedOrgs "HackerMSP" = false ∧
    Err.notFound "Aspirin" ≠ Err.unauthorized "HackerMSP" := by
  refine ⟨rfl, rfl, by decide⟩

/-- C1 (amended): `RequestMedicine` from an identity outside
`{ProducerMSP, SupplierMSP}` yields Unauthorized whenever the medicine
exists, and NotFound (never Unauthorized) when it does not, the state being
unchanged either way: the existence check precedes the authorization check. -/
theorem c1_unauthorized_request (L : Ledger) (caller name details : String)
    (hauth : allowedOrgs caller = false) :
    (getState L name ≠ none →
      requestMedicine L caller name details = (Except.error (Err.unauthorized caller), L)) ∧
    (getState L name = none →
      requestMedicine L caller name details = (Except.error (Err.notFound name), L)) := by
  unfold requestMedicine
  cases hg : getState L name with
  | none => exact ⟨fun hc => absurd rfl hc, fun _ => rfl⟩
  | some w =>
    rw [hauth]
    exact ⟨fun _ => by simp, fun hc => Option.noConfusion hc⟩

theorem c1_witness :
    requestMedicine ledgerA "HackerMSP" "Aspirin" "urgent" =
      (Except.error (Err.unauthorized "HackerMSP"), ledgerA) :=
  (c1_unauthorized_request ledgerA "HackerMSP" "Aspirin" "urgent" rfl).1 (by decide)

/-- C2: after `AddMedicine("Aspirin", ...)` then `DeleteMedicine("Aspirin")`
the per-key history does hold two entries, but `ShowMedicineHistory` aborts
with a decode error instead of returning them: the delete's tombstone entry
has a nil value and `json.Unmarshal(nil, &txValue)` fails, so the code never
exposes the deletion as an entry without a value (contrary to the spec's
§4.5 and the §8 scenario). -/
theorem c2_history_aborts_on_tombstone :
    (addMedicine emptyLedger "ManufacturerMSP" "Aspirin" 100 dmStr deStr).1 = Except.ok () ∧
    (deleteMedicine ledgerA "Aspirin").1 = Except.ok () ∧
    (historyOf ledgerAD "Aspirin").length = 2 ∧
    (historyOf ledgerAD "Aspirin").map HistEntry.value =
      [some (StoredVal.med medAspirin), none] ∧
    showMedicineHistory ledgerAD "Aspirin" = Except.error (Err.decodeFail "Aspirin") := by
  refine ⟨rfl, rfl, rfl, rfl, rfl⟩

/-- C3: in the §8 scenario (Add "Aspirin", Request by SupplierMSP, Delete
"Aspirin") the world state holds only the `request_SupplierMSP_Aspirin`
record, yet `ListMedicines` returns one entry: the unrestricted
`GetStateByRange("", "")` scan picks up the request record and
`json.Unmarshal` silently decodes it into a zero-valued `Medicine`, instead
of the empty sequence the claim requires. -/
theorem c3_list_returns_request_artifact :
    (requestMedicine ledgerA "SupplierMSP" "Aspirin" "urgent").1 = Except.ok () ∧
    (deleteMedicine ledgerAR "Aspirin").1 = Except.ok () ∧
    ledgerARD.kv = [(requestKey "SupplierMSP" "Aspirin",
      StoredVal.req { medicineName := "Aspirin", requester := "SupplierMSP", details := "urgent" })] ∧
    listMedicines ledgerARD = [zeroMedicine] ∧
    listMedicines ledgerARD ≠ [] := by
  refine ⟨rfl, rfl, rfl, rfl, by decide⟩

/-- C4: a second `AddMedicine` with the same name (any caller, quantity and
date strings) fails with AlreadyExists and leaves the state written by the
first call untouched. -/
theorem c4_add_twice_already_exists (L L1 : Ledger) (ca cb name : String) (qa qb : Int)
    (d1 d2 e1 e2 : String)
    (h : addMedicine L ca name qa d1 d2 = (Except.ok (), L1)) :
    addMedicine L1 cb name qb e1 e2 = (Except.error (Err.alreadyExists name), L1) := by
  obtain ⟨-, mt, et, -, -, hL1⟩ := addMedicine_ok_shape h
  subst hL1
  unfold addMedicine
  rw [getState_putState_self]

theorem c4_witness :
    addMedicine ledgerA "SupplierMSP" "Aspirin" 50 dmStr deStr =
      (Except.error (Err.alreadyExists "Aspirin"), ledgerA) :=
  c4_add_twice_already_exists emptyLedger ledgerA "ManufacturerMSP" "SupplierMSP"
    "Aspirin" 100 50 dmStr deStr dmStr deStr rfl

/-- C5 counterexample: with a `MedicineRequest` record in world state, a
successful `AddMedicine("")` followed by `DeleteMedicine("")` still leaves
`ListMedicines` containing an entry whose name is `""` — the request record
decodes to a zero-valued `Medicine` — so for `n = ""` the claim's "contains
no Medicine whose name is n" fails. -/
theorem c5_counterexample :
    (addMedicine ledgerAR "OwnerMSP" "" 1 dmStr deStr).1 = Except.ok () ∧
    (deleteMedicine ledgerEmptyNameAdded "").1 = Except.ok () ∧
    "" ∈ (listMedicines ledgerEmptyNameDeleted).map Medicine.name := by
  refine ⟨rfl, rfl, ?_⟩
  rw [List.mem_map]
  refine ⟨zeroMedicine, ?_, rfl⟩
  unfold listMedicines
  rw [List.mem_insertionSort]
  decide

/-- C5 (amended): `DeleteMedicine` on a missing name yields NotFound with the
state unchanged; and for a NON-EMPTY name `n`, after a successful Add then
Delete of `n` starting from any reachable state, `ListMedicines` contains no
Medicine whose name is `n` (for `n = ""` a `request_*` record in world state
decodes to a zero-valued entry named `""`, see the counterexample). -/
theorem c5_delete_notfound_and_list_excludes (L L0 : Ledger) (hL : Reachable L)
    (name caller d1 d2 : String) (q : Int) (L1 L2 : Ledger) (hn : name ≠ "")
    (h0 : getState L0 name = none)
    (h1 : addMedicine L caller name q d1 d2 = (Except.ok (), L1))
    (h2 : deleteMedicine L1 name = (Except.ok (), L2)) :
    deleteMedicine L0 name = (Except.error (Err.notFound name), L0) ∧
    name ∉ (listMedicines L2).map Medicine.name := by
  constructor
  · unfold deleteMedicine
    rw [h0]
  · have hreach1 : Reachable L1 := Reachable.add L caller name q d1 d2 L1 hL h1
    have hinv1 : InvKV L1.kv := reachable_invKV hreach1
    obtain ⟨-, hL2⟩ := deleteMedicine_ok_shape h2
    subst hL2
    intro hmem
    rw [List.mem_map] at hmem
    obtain ⟨m, hm, hname⟩ := hmem
    unfold listMedicines at hm
    have hm' := (List.mem_insertionSort nameLe).mp hm
    rw [List.mem_map] at hm'
    obtain ⟨p, hp, hdec⟩ := hm'
    have hp' : p ∈ L1.kv.filter (fun pp => pp.1 != name) := by
      simpa [delState] using hp
    have hpmem : p ∈ L1.kv := List.mem_of_mem_filter hp'
    have hpne : p.1 ≠ name := by
      have := List.of_mem_filter hp'
      simpa using this
    cases hsv : p.2 with
    | med mm =>
      have hkey : mm.name = p.1 := hinv1 p hpmem mm hsv
      rw [hsv] at hdec
      simp only [decodeStored] at hdec
      apply hpne
      rw [← hname, ← hdec, hkey]
    | req rr =>
      rw [hsv] at hdec
      simp only [decodeStored] at hdec
      apply hn
      rw [← hname, ← hdec]
      rfl

theorem c5_witness :
    deleteMedicine emptyLedger "Aspirin" = (Except.error (Err.notFound "Aspirin"), emptyLedger) ∧
    "Aspirin" ∉ (listMedicines ledgerAD).map Medicine.name :=
  c5_delete_notfound_and_list_excludes emptyLedger emptyLedger Reachable.init
    "Aspirin" "ManufacturerMSP" dmStr deStr 100 ledgerA ledgerAD (by decide) rfl rfl rfl

/-- C6: for every world state, the output of `ListMedicines` is sorted
ascending by the `name` field under the lexicographic string order (the code
sorts with `sort.Slice` on `Name <`). -/
theorem c6_list_sorted_by_name (L : Ledger) : List.Sorted nameLe (listMedicines L) := by
  unfold listMedicines
  exact List.sorted_insertionSort nameLe _

/-- C7 counterexample: Add "Aspirin", successful Request by `SupplierMSP`,
Delete "Aspirin"; the request record is still present (never cleared), yet a
second Request by the same caller fails with NotFound, not AlreadyExists —
the existence check runs before the duplicate-request check. -/
theorem c7_counterexample :
    (requestMedicine ledgerA "SupplierMSP" "Aspirin" "urgent").1 = Except.ok () ∧
    getState ledgerARD (requestKey "SupplierMSP" "Aspirin") =
      some (StoredVal.req
        { medicineName := "Aspirin", requester := "SupplierMSP", details := "urgent" }) ∧
    (requestMedicine ledgerARD "SupplierMSP" "Aspirin" "again").1 =
      Except.error (Err.notFound "Aspirin") ∧
    Err.notFound "Aspirin" ≠ Err.requestExists "Aspirin" := by
  refine ⟨rfl, rfl, rfl, by decide⟩

/-- C7 (amended): while a request by `r` for `name` is outstanding, a second
`RequestMedicine` by `r` for `name` writes nothing and is rejected: with
AlreadyExists whenever the medicine still exists, and with NotFound when the
medicine has been deleted in the meantime. -/
theorem c7_second_request_rejected (L : Ledger) (r name d : String) (v : StoredVal)
    (hreq : getState L (requestKey r name) = some v)
    (hauth : allowedOrgs r = true) :
    (requestMedicine L r name d).2 = L ∧
    (requestMedicine L r name d).1 ≠ Except.ok () ∧
    (getState L name ≠ none →
      (requestMedicine L r name d).1 = Except.error (Err.requestExists name)) ∧
    (getState L name = none →
      (requestMedicine L r name d).1 = Except.error (Err.notFound name)) := by
  unfold requestMedicine
  cases hg : getState L name with
  | none => exact ⟨rfl, by simp, fun hc => absurd rfl hc, fun _ => rfl⟩
  | some w =>
    rw [hauth, hreq]
    exact ⟨by simp, by simp, fun _ => by simp, fun hc => Option.noConfusion hc⟩

theorem c7_witness :
    (requestMedicine ledgerAR "SupplierMSP" "Aspirin" "again").2 = ledgerAR ∧
    (requestMedicine ledgerAR "SupplierMSP" "Aspirin" "again").1 ≠ Except.ok () ∧
    (getState ledgerAR "Aspirin" ≠ none →
      (requestMedicine ledgerAR "SupplierMSP" "Aspirin" "again").1 =
        Except.error (Err.requestExists "Aspirin")) ∧
    (getState ledgerAR "Aspirin" = none →
      (requestMedicine ledgerAR "SupplierMSP" "Aspirin" "again").1 =
        Except.error (Err.notFound "Aspirin")) :=
  c7_second_request_rejected ledgerAR "SupplierMSP" "Aspirin" "again"
    (StoredVal.req { medicineName := "Aspirin", requester := "SupplierMSP", details := "urgent" })
    rfl rfl

/-- C8: after a successful `DeleteMedicine(name)`, an `AddMedicine(name, ...)`
with valid date strings succeeds again — existence in world state is the only
checked precondition, so a name is never permanently retired. -/
theorem c8_add_after_delete (L : Ledger) (caller name : String) (q : Int) (d1 d2 : String)
    (h : (deleteMedicine L name).1 = Except.ok ())
    (h1 : rfc3339Valid d1 = true) (h2 : rfc3339Valid d2 = true) :
    (addMedicine (deleteMedicine L name).2 caller name q d1 d2).1 = Except.ok () := by
  have hdel : (deleteMedicine L name).2 = delState L name := by
    unfold deleteMedicine at h ⊢
    cases hg : getState L name with
    | none => rw [hg] at h; exact absurd h (by simp)
    | some w => rfl
  rw [hdel]
  unfold addMedicine
  rw [getState_delState_self]
  simp [parseRFC3339, h1, h2]

theorem c8_witness :
    (addMedicine (deleteMedicine ledgerA "Aspirin").2 "ProducerMSP" "Aspirin" 7 dmStr deStr).1 =
      Except.ok () :=
  c8_add_after_delete ledgerA "ProducerMSP" "Aspirin" 7 dmStr deStr rfl rfl rfl

/-- C9 counterexample: `AddMedicine` with the empty name and valid dates
succeeds and creates a live Medicine record under the empty key — no
non-emptiness check exists in the code. -/
theorem c9_counterexample :
    (addMedicine emptyLedger "ManufacturerMSP" "" 5 dmStr deStr).1 = Except.ok () ∧
    getState (addMedicine emptyLedger "ManufacturerMSP" "" 5 dmStr deStr).2 "" =
      some (StoredVal.med medEmptyName) :=
  ⟨rfl, rfl⟩

/-- C9 (amended): in every reachable world state each live Medicine record's
`name` equals the key it is stored under — but that name may be empty, since
`AddMedicine` checks only existence and date validity, never non-emptiness. -/
theorem c9_name_equals_key (L : Ledger) (hL : Reachable L) (k : String) (m : Medicine)
    (h : getState L k = some (StoredVal.med m)) : m.name = k :=
  reachable_invKV hL (k, StoredVal.med m) (mem_of_lookup_eq_some h) m rfl

theorem c9_witness : medAspirin.name = "Aspirin" :=
  c9_name_equals_key ledgerA
    (Reachable.add emptyLedger "ManufacturerMSP" "Aspirin" 100 dmStr deStr ledgerA
      Reachable.init rfl)
    "Aspirin" medAspirin rfl

/-- C10: every error return of `AddMedicine`, `DeleteMedicine` or
`RequestMedicine` leaves the ledger exactly as it was — in the source every
`return fmt.Errorf(...)` happens before the single `PutState`/`DelState`
call of the operation. -/
theorem c10_errors_leave_state_unchanged (L : Ledger)
    (caller name details d1 d2 : String) (q : Int) (ea ed er : Err) :
    ((addMedicine L caller name q d1 d2).1 = Except.error ea →
      (addMedicine L caller name q d1 d2).2 = L) ∧
    ((deleteMedicine L name).1 = Except.error ed → (deleteMedicine L name).2 = L) ∧
    ((requestMedicine L caller name details).1 = Except.error er →
      (requestMedicine L caller name details).2 = L) := by
  refine ⟨fun h => ?_, fun h => ?_, fun h => ?_⟩
  · rcases addMedicine_state_cases L caller name q d1 d2 with hok | hst
    · rw [h] at hok; exact absurd hok (by simp)
    · exact hst
  · rcases deleteMedicine_state_cases L name with hok | hst
    · rw [h] at hok; exact absurd hok (by simp)
    · exact hst
  · rcases requestMedicine_state_cases L caller name details with hok | hst
    · rw [h] at hok; exact absurd hok (by simp)
    · exact hst

theorem c10_witness : (deleteMedicine emptyLedger "Aspirin").2 = emptyLedger :=
  (c10_errors_leave_state_unchanged emptyLedger "c" "Aspirin" "d" dmStr deStr 0
    (Err.notFound "Aspirin") (Err.notFound "Aspirin") (Err.notFound "Aspirin")).2.1 rfl
